import Mathlib

/-!
# tailwind.config.js

A verification development for the default export of `tailwind.config.js`.

The module is a single object literal.  Its top-level keys become the fields
of a record; the two string-keyed mappings (`theme.fontFamily`,
`theme.screens`) are evaluated with the property semantics of an ECMAScript
object literal, so that the order and the uniqueness of their keys are
computed rather than assumed; and the one call in the file, `require(...)`,
is evaluated against a module registry given as a parameter.
-/

namespace TailwindConfig

/-! ## ECMAScript object literals -/

/-- Value of a run of decimal digits, most significant digit first. -/
def decimalValue (cs : List Char) : Nat :=
  cs.foldl (fun n c => 10 * n + (c.toNat - '0'.toNat)) 0

/-- An array index is a property key that is the canonical decimal spelling
of an integer between 0 and 2^32 - 2: such keys are enumerated first, in
numeric order, whatever the order they were written in. -/
def isArrayIndex (k : String) : Bool :=
  let cs := k.toList
  !cs.isEmpty && cs.all Char.isDigit && (cs == ['0'] || cs.head? != some '0')
    && decide (decimalValue cs ≤ 4294967294)

/-- One property definition `k: v` of an object literal: a key already
present keeps its place and takes the new value, a new key goes last. -/
def defineProperty {α : Type} (o : List (String × α)) (k : String) (v : α) :
    List (String × α) :=
  if o.any (fun p => p.1 == k) then
    o.map (fun p => if p.1 == k then (k, v) else p)
  else
    o ++ [(k, v)]

/-- Insertion of an entry with an array-index key into a run of such
entries kept in ascending numeric order. -/
def insertIndexed {α : Type} (e : String × α) : List (String × α) → List (String × α)
  | [] => [e]
  | p :: ps =>
    if decimalValue e.1.toList ≤ decimalValue p.1.toList then e :: p :: ps
    else p :: insertIndexed e ps

/-- Own enumerable entries in enumeration order: array-index keys in
ascending numeric order, then the other string keys in creation order. -/
def ownEntries {α : Type} (o : List (String × α)) : List (String × α) :=
  (o.filter (fun p => isArrayIndex p.1)).foldr insertIndexed []
    ++ o.filter (fun p => !isArrayIndex p.1)

/-- Evaluation of an object literal `{ k₁: v₁, ..., kₙ: vₙ }`: each property
is defined in turn, from left to right, and the result is read back in
enumeration order. -/
def objectLiteral {α : Type} (props : List (String × α)) : List (String × α) :=
  ownEntries (props.foldl (fun o p => defineProperty o p.1 p.2) [])

/-! ## The configuration document -/

/-- The `theme` object. -/
structure Theme where
  fontFamily : List (String × List String)
  screens : List (String × String)
deriving DecidableEq, Repr

/-- The object exported by the module; `μ` is the type of loaded modules. -/
structure Config (μ : Type) where
  darkMode : String
  purge : List String
  theme : Theme
  plugins : List μ

/-- Failure of the module's evaluation. -/
inductive EvalError where
  | moduleNotFound (specifier : String)
deriving DecidableEq, Repr

/-- The host's `require`: lookup of a module specifier in the registry of
installed modules; an unknown specifier throws. -/
def require {μ : Type} (registry : String → Option μ) (specifier : String) :
    Except EvalError μ :=
  match registry specifier with
  | some m => .ok m
  | none => .error (.moduleNotFound specifier)

/-- `darkMode: 'class'` -/
def darkMode : String := "class"

/-- `purge: ['./index.html', './src/**/*.{vue,js,ts,jsx,tsx}']` -/
def purge : List String :=
  ["./index.html", "./src/**/*.\x7bvue,js,ts,jsx,tsx\x7d"]

/-- The property definitions of `theme.fontFamily`, as written. -/
def fontFamilyLiteral : List (String × List String) :=
  [("sans", ["Inter"])]

/-- `theme.fontFamily` -/
def fontFamily : List (String × List String) :=
  objectLiteral fontFamilyLiteral

/-- The property definitions of `theme.screens`, as written. -/
def screensLiteral : List (String × String) :=
  [("xs", "320px"), ("sm", "375px"), ("lsm", "425px"), ("md", "768px"),
   ("lg", "1024px"), ("xl", "1280px"), ("2xl", "1536px")]

/-- `theme.screens` -/
def screens : List (String × String) :=
  objectLiteral screensLiteral

/-- `theme: { fontFamily: {...}, screens: {...} }` -/
def theme : Theme :=
  { fontFamily := fontFamily, screens := screens }

/-- `plugins: [require('@tailwindcss/typography')]` -/
def plugins {μ : Type} (registry : String → Option μ) : Except EvalError (List μ) := do
  let typography ← require registry "@tailwindcss/typography"
  pure [typography]

/-- `export default { darkMode, purge, theme, plugins }`: the properties are
evaluated in the order written, so the only step that can throw, the
`require` call, comes last. -/
def defaultExport {μ : Type} (registry : String → Option μ) :
    Except EvalError (Config μ) := do
  let darkMode := darkMode
  let purge := purge
  let theme := theme
  let plugins ← plugins registry
  pure { darkMode := darkMode, purge := purge, theme := theme, plugins := plugins }

/-- A registry in which only the typography plugin is installed. -/
def typographyOnly : String → Option Unit :=
  fun specifier => if specifier = "@tailwindcss/typography" then some () else none

/-! ## Reading the document

The vocabulary of the specification: the recognised dark-mode strategies and
the reading of a breakpoint width as a pixel measurement. -/

/-- The dark-mode strategies the specification recognises. -/
def recognisedDarkModes : List String := ["media", "class", "selector"]

/-- The leading decimal digits of a width. -/
def leadingDigits (w : String) : List Char :=
  w.toList.takeWhile Char.isDigit

/-- What follows the leading decimal digits of a width. -/
def unitSuffix (w : String) : List Char :=
  w.toList.dropWhile Char.isDigit

/-- A width read as a pixel count: the number spelled by its digits when
they are followed by `px` and nothing else. -/
def pxValue (w : String) : Option Nat :=
  if leadingDigits w ≠ [] ∧ unitSuffix w = ['p', 'x'] then
    some (decimalValue (leadingDigits w))
  else
    none

/-- Strict order on pixel counts; false when either side is not one. -/
def pxLt : Option Nat → Option Nat → Prop
  | some a, some b => a < b
  | _, _ => False

instance pxLtDecidable : DecidableRel pxLt := fun x y =>
  match x, y with
  | some a, some b => Nat.decLt a b
  | none, _ => isFalse (fun h => h)
  | some _, none => isFalse (fun h => h)

/-- The earlier entry's width is a smaller pixel count than the later
entry's; false when either width is not a pixel count. -/
def widthLt (e₁ e₂ : String × String) : Prop :=
  pxLt (pxValue e₁.2) (pxValue e₂.2)

instance widthLtDecidable : DecidableRel widthLt := fun e₁ e₂ =>
  pxLtDecidable (pxValue e₁.2) (pxValue e₂.2)

/-- A well-formed pixel measurement: a non-empty run of decimal digits with
no leading zero, denoting a positive integer, followed by `px` and nothing
else. -/
def WellFormedPx (w : String) : Prop :=
  ∃ ds : List Char, w.toList = ds ++ ['p', 'x'] ∧ ds ≠ [] ∧
    (∀ c ∈ ds, c.isDigit = true) ∧ ds.head? ≠ some '0' ∧ 0 < decimalValue ds

/-- Executable check of `WellFormedPx`. -/
def isPixelMeasurement (w : String) : Bool :=
  !(leadingDigits w).isEmpty && unitSuffix w == ['p', 'x']
    && (leadingDigits w).head? != some '0' && decide (0 < decimalValue (leadingDigits w))

/-! ## Lemmas -/

theorem isPixelMeasurement_sound (w : String) (h : isPixelMeasurement w = true) :
    WellFormedPx w := by
  simp only [isPixelMeasurement, Bool.and_eq_true, Bool.not_eq_true', bne_iff_ne, ne_eq,
    decide_eq_true_eq, beq_iff_eq, List.isEmpty_eq_false] at h
  obtain ⟨⟨⟨h1, h2⟩, h3⟩, h4⟩ := h
  refine ⟨leadingDigits w, ?_, h1, ?_, h3, h4⟩
  · have := List.takeWhile_append_dropWhile Char.isDigit w.toList
    rw [← h2]
    exact this.symm
  · intro c hc
    exact List.mem_takeWhile_imp hc

theorem defineProperty_keys_nodup {α : Type} (o : List (String × α)) (k : String) (v : α)
    (h : (o.map Prod.fst).Nodup) : ((defineProperty o k v).map Prod.fst).Nodup := by
  unfold defineProperty
  split
  · have hk : (o.map (fun p => if p.1 == k then (k, v) else p)).map Prod.fst
        = o.map Prod.fst := by
      rw [List.map_map]
      apply List.map_congr_left
      intro p _
      by_cases hp : p.1 = k <;> simp [hp]
    rw [hk]
    exact h
  · rename_i hany
    have hk : k ∉ o.map Prod.fst := by
      intro hmem
      apply hany
      obtain ⟨p, hp, rfl⟩ := List.mem_map.1 hmem
      exact List.any_eq_true.2 ⟨p, hp, by simp⟩
    rw [List.map_append, List.nodup_append]
    refine ⟨h, by simp, ?_⟩
    intro a ha hb
    simp only [List.map_cons, List.map_nil, List.mem_singleton] at hb
    exact hk (hb ▸ ha)

theorem defineProperty_fresh {α : Type} (o : List (String × α)) (k : String) (v : α)
    (h : k ∉ o.map Prod.fst) : defineProperty o k v = o ++ [(k, v)] := by
  unfold defineProperty
  split
  · rename_i hany
    obtain ⟨p, hp, hpk⟩ := List.any_eq_true.1 hany
    exact absurd (List.mem_map.2 ⟨p, hp, by simpa using hpk⟩) h
  · rfl

theorem foldl_defineProperty_keys_nodup {α : Type} (props o : List (String × α))
    (h : (o.map Prod.fst).Nodup) :
    ((props.foldl (fun o p => defineProperty o p.1 p.2) o).map Prod.fst).Nodup := by
  induction props generalizing o with
  | nil => exact h
  | cons p ps ih => exact ih _ (defineProperty_keys_nodup o p.1 p.2 h)

theorem foldl_defineProperty_fresh {α : Type} (props o : List (String × α))
    (h : ((o ++ props).map Prod.fst).Nodup) :
    props.foldl (fun o p => defineProperty o p.1 p.2) o = o ++ props := by
  induction props generalizing o with
  | nil => simp
  | cons p ps ih =>
    have hp : p.1 ∉ o.map Prod.fst := by
      rw [List.map_append, List.nodup_append] at h
      intro hmem
      exact h.2.2 hmem (by simp)
    rw [List.foldl_cons, defineProperty_fresh o p.1 p.2 hp, ih]
    · simp
    · simpa using h

theorem insertIndexed_perm {α : Type} (e : String × α) (l : List (String × α)) :
    (insertIndexed e l).Perm (e :: l) := by
  induction l with
  | nil => exact List.Perm.refl _
  | cons p ps ih =>
    unfold insertIndexed
    split
    · exact List.Perm.refl _
    · exact (List.Perm.cons p ih).trans (List.Perm.swap e p ps)

theorem ownEntries_perm {α : Type} (o : List (String × α)) : (ownEntries o).Perm o := by
  unfold ownEntries
  have hsort : ∀ l : List (String × α), (l.foldr insertIndexed []).Perm l := by
    intro l
    induction l with
    | nil => exact List.Perm.refl _
    | cons p ps ih => exact (insertIndexed_perm p _).trans (List.Perm.cons p ih)
  exact (List.Perm.append_right _ (hsort _)).trans
    (List.filter_append_perm (fun p => isArrayIndex p.1) o)

theorem ownEntries_no_index {α : Type} (o : List (String × α))
    (h : ∀ p ∈ o, isArrayIndex p.1 = false) : ownEntries o = o := by
  unfold ownEntries
  have h1 : o.filter (fun p => isArrayIndex p.1) = [] := by
    rw [List.filter_eq_nil_iff]
    intro p hp
    simp [h p hp]
  have h2 : o.filter (fun p => !isArrayIndex p.1) = o := by
    rw [List.filter_eq_self]
    intro p hp
    simp [h p hp]
  rw [h1, h2]
  rfl

/-- The keys of an evaluated object literal are pairwise distinct, whatever
was written. -/
theorem objectLiteral_keys_nodup {α : Type} (props : List (String × α)) :
    ((objectLiteral props).map Prod.fst).Nodup := by
  unfold objectLiteral
  exact ((ownEntries_perm _).map Prod.fst).nodup_iff.2
    (foldl_defineProperty_keys_nodup props [] List.nodup_nil)

/-- A literal whose keys are distinct and none an array index is enumerated
in the order it is written. -/
theorem objectLiteral_insertion_order {α : Type} (props : List (String × α))
    (hnodup : (props.map Prod.fst).Nodup) (hidx : ∀ p ∈ props, isArrayIndex p.1 = false) :
    objectLiteral props = props := by
  unfold objectLiteral
  rw [foldl_defineProperty_fresh props [] (by simpa using hnodup)]
  simpa using ownEntries_no_index props hidx

theorem require_registered {μ : Type} (registry : String → Option μ) (specifier : String)
    (m : μ) (h : registry specifier = some m) : require registry specifier = .ok m := by
  simp [require, h]

theorem require_unregistered {μ : Type} (registry : String → Option μ) (specifier : String)
    (h : registry specifier = none) :
    require registry specifier = .error (.moduleNotFound specifier) := by
  simp [require, h]

theorem plugins_registered {μ : Type} (registry : String → Option μ) (m : μ)
    (h : registry "@tailwindcss/typography" = some m) : plugins registry = .ok [m] := by
  simp only [plugins, require_registered registry _ m h]
  rfl

theorem plugins_unregistered {μ : Type} (registry : String → Option μ)
    (h : registry "@tailwindcss/typography" = none) :
    plugins registry = .error (.moduleNotFound "@tailwindcss/typography") := by
  simp only [plugins, require_unregistered registry _ h]
  rfl

theorem defaultExport_registered {μ : Type} (registry : String → Option μ) (m : μ)
    (h : registry "@tailwindcss/typography" = some m) :
    defaultExport registry
      = .ok { darkMode := darkMode, purge := purge, theme := theme, plugins := [m] } := by
  simp only [defaultExport, plugins_registered registry m h]
  rfl

theorem defaultExport_unregistered {μ : Type} (registry : String → Option μ)
    (h : registry "@tailwindcss/typography" = none) :
    defaultExport registry = .error (.moduleNotFound "@tailwindcss/typography") := by
  simp only [defaultExport, plugins_unregistered registry h]
  rfl

/-! ## The breakpoints -/

/-- C1: the breakpoint mapping `theme.screens` is exactly the seven
label/width pairs xs 320px, sm 375px, lsm 425px, md 768px, lg 1024px,
xl 1280px, 2xl 1536px, enumerated in the order they are written, with no
other entry. -/
theorem screens_exact :
    theme.screens =
      [("xs", "320px"), ("sm", "375px"), ("lsm", "425px"), ("md", "768px"),
       ("lg", "1024px"), ("xl", "1280px"), ("2xl", "1536px")]
    ∧ theme.screens.length = 7 := by
  decide

/-- C2: read as pixel counts, the widths of `theme.screens` are 320, 375,
425, 768, 1024, 1280, 1536, and every entry's width is smaller than the
width of the entry that follows it. -/
theorem screens_widths_strictly_increasing :
    theme.screens.map (fun e => pxValue e.2)
      = [some 320, some 375, some 425, some 768, some 1024, some 1280, some 1536]
    ∧ List.Chain' widthLt theme.screens := by
  refine ⟨by decide, ?_⟩
  have h : theme.screens = screensLiteral := by decide
  rw [h]
  simp only [screensLiteral, List.chain'_cons, List.chain'_singleton, and_true]
  decide

/-- C3: the labels of `theme.screens` are pairwise distinct, both as the
keys written in the literal and as the keys of the evaluated mapping. -/
theorem screens_labels_distinct :
    (theme.screens.map Prod.fst).Nodup ∧ (screensLiteral.map Prod.fst).Nodup := by
  decide

/-- C9: every width in `theme.screens` is a well-formed pixel measurement:
a non-empty run of decimal digits with no leading zero, denoting a positive
integer, followed by `px` and nothing else. -/
theorem screens_widths_well_formed (e : String × String) (h : e ∈ theme.screens) :
    WellFormedPx e.2 := by
  apply isPixelMeasurement_sound
  revert e
  decide

theorem screens_widths_well_formed_witness :
    ("2xl", "1536px") ∈ theme.screens ∧ WellFormedPx "1536px" :=
  ⟨by decide, screens_widths_well_formed ("2xl", "1536px") (by decide)⟩

/-! ## The other fields -/

/-- C4: the dark-mode strategy is `class`, one of the recognised
strategies media, class and selector, and the document the module evaluates
to carries that value. -/
theorem darkMode_recognised {μ : Type} (registry : String → Option μ) (m : μ)
    (h : registry "@tailwindcss/typography" = some m) :
    darkMode = "class" ∧ darkMode ∈ recognisedDarkModes
    ∧ ∃ cfg, defaultExport registry = .ok cfg ∧ cfg.darkMode = "class" := by
  refine ⟨rfl, by decide, _, defaultExport_registered registry m h, rfl⟩

theorem darkMode_recognised_witness :
    typographyOnly "@tailwindcss/typography" = some ()
    ∧ darkMode = "class" ∧ darkMode ∈ recognisedDarkModes
    ∧ ∃ cfg, defaultExport typographyOnly = .ok cfg ∧ cfg.darkMode = "class" :=
  ⟨by decide, darkMode_recognised typographyOnly () (by decide)⟩

/-- C5: the content-scan globs `purge` are non-empty: they are exactly the
two globs `./index.html` and `./src/**/*.{vue,js,ts,jsx,tsx}`, in this
order. -/
theorem purge_nonempty_exact :
    purge ≠ [] ∧ purge = ["./index.html", "./src/**/*.\x7bvue,js,ts,jsx,tsx\x7d"]
    ∧ purge.length = 2 := by
  decide

/-- C6: every font-family chain of `theme.fontFamily` has at least one font
name; the only family is `sans`, whose chain is the single name `Inter`. -/
theorem fontFamily_chains_nonempty :
    theme.fontFamily = [("sans", ["Inter"])]
    ∧ ∀ e ∈ theme.fontFamily, e.2 ≠ [] := by
  decide

theorem fontFamily_chains_nonempty_witness :
    ("sans", ["Inter"]) ∈ theme.fontFamily ∧ ["Inter"] ≠ [] :=
  ⟨by decide, fontFamily_chains_nonempty.2 ("sans", ["Inter"]) (by decide)⟩

/-- C7: the plugin sequence is the single module that
`@tailwindcss/typography` resolves to: with typography registered, the
`plugins` array evaluates to that one module, and the exported document
carries a plugin sequence of exactly one element. -/
theorem plugins_single_typography {μ : Type} (registry : String → Option μ) (m : μ)
    (h : registry "@tailwindcss/typography" = some m) :
    plugins registry = .ok [m]
    ∧ ∃ cfg, defaultExport registry = .ok cfg ∧ cfg.plugins = [m]
        ∧ cfg.plugins.length = 1 := by
  refine ⟨plugins_registered registry m h, _, defaultExport_registered registry m h, rfl, rfl⟩

theorem plugins_single_typography_witness :
    typographyOnly "@tailwindcss/typography" = some ()
    ∧ plugins typographyOnly = .ok [()]
    ∧ ∃ cfg, defaultExport typographyOnly = .ok cfg ∧ cfg.plugins = [()]
        ∧ cfg.plugins.length = 1 :=
  ⟨by decide, plugins_single_typography typographyOnly () (by decide)⟩

end TailwindConfig
